import Mathlib

/-!
# Verification of the localrun tunnel client

A shallow embedding of the core of the localrun reverse-tunnel client
(`src/chunk-utils.ts` and `src/tunnel.ts`) together with proofs about it.

Strings manipulated by the chunker are JavaScript strings, i.e. sequences of
UTF-16 code units; we model them as `List Nat` (`JSStr`).  `TextEncoder`
(UTF-8 encoding, with unpaired surrogates replaced by U+FFFD) is modelled by
`utf8Len`, which computes the byte length of the encoding.

Tunnel-level strings (paths, methods, header names, error messages) never
involve surrogate subtleties, so they are modelled as Lean `String`s, with
JavaScript's `String.prototype.includes` modelled by `includesL`.

`JSON.stringify` / `JSON.parse` are JavaScript runtime primitives, not code
of this repository; they are treated as parameters (`stringify`, `parse`)
with the round-trip law `parse (stringify m) = some m` assumed where a claim
needs it.
-/

/-- A JavaScript string: a sequence of UTF-16 code units. -/
abbrev JSStr := List Nat

/-- Number of UTF-8 bytes a single code unit occupies, viewed as a scalar
value.  (A lone surrogate, 0xD800–0xDFFF, is replaced by U+FFFD, which is
also 3 bytes, so this formula covers that case.) -/
def utf8UnitLen (u : Nat) : Nat :=
  if u < 0x80 then 1 else if u < 0x800 then 2 else 3

/-- Is the code unit a UTF-16 high (leading) surrogate? -/
def isHighSurrogate (u : Nat) : Bool := 0xD800 ≤ u && u ≤ 0xDBFF

/-- Is the code unit a UTF-16 low (trailing) surrogate? -/
def isLowSurrogate (u : Nat) : Bool := 0xDC00 ≤ u && u ≤ 0xDFFF

/-- Byte length of `TextEncoder().encode(s)` for a JS string `s`: a paired
surrogate encodes as one 4-byte sequence, every other unit encodes on its
own (lone surrogates as the 3-byte U+FFFD). -/
def utf8Len : JSStr → Nat
  | [] => 0
  | [u] => utf8UnitLen u
  | u :: v :: rest =>
      if isHighSurrogate u && isLowSurrogate v then 4 + utf8Len rest
      else utf8UnitLen u + utf8Len (v :: rest)

/-- The binary search of `safeStringChunk` (chunk-utils.ts lines 27–42):
find the largest number of UTF-16 units `mid ∈ [left, right]` whose prefix
encodes to at most `maxBytes` UTF-8 bytes.  `s` is the remaining string
(the source indexes from `currentIndex`; here the prefix is `s.take mid`).
`best` is the running `bestLength` (initialised to 1 by the caller). -/
def bsearch (s : JSStr) (maxBytes left right best : Nat) : Nat :=
  if left ≤ right then
    let mid := (left + right) / 2
    if utf8Len (s.take mid) ≤ maxBytes then
      bsearch s maxBytes (mid + 1) right mid
    else
      bsearch s maxBytes left (mid - 1) best
  else best
termination_by right + 1 - left
decreasing_by
  · have hml : left ≤ (left + right) / 2 := by
      rw [Nat.le_div_iff_mul_le (by norm_num : 0 < 2)]
      omega
    omega
  · have hmr : (left + right) / 2 ≤ right := by
      have h2 : left + right ≤ right * 2 := by omega
      calc (left + right) / 2 ≤ right * 2 / 2 := Nat.div_le_div_right h2
        _ = right := Nat.mul_div_cancel right (by norm_num)
    have hmid : (left + right) / 2 ≠ 0 := by
      intro h0
      apply ‹¬ utf8Len (List.take ((left + right) / 2) s) ≤ maxBytes›
      show utf8Len (List.take ((left + right) / 2) s) ≤ maxBytes
      rw [h0]
      simp [utf8Len]
    omega

/-- `safeStringChunk` (chunk-utils.ts lines 11–58): split a JS string into
substrings of at most `maxBytes` UTF-8 bytes each.  The source's `while`
loop over `currentIndex` becomes recursion on the remaining string: the
first branch is the `remainingBytes.length <= maxBytes` early exit, the
second runs the binary search and advances by `bestLength`.  The source's
`bestLength === 0` throw is unreachable (`bestLength` starts at 1 and is
only ever overwritten by a midpoint `≥ left ≥ 1`). -/
def safeStringChunk (str : JSStr) (maxBytes : Nat) : List JSStr :=
  if str = [] then []
  else if utf8Len str ≤ maxBytes then [str]
  else
    let bestLength := bsearch str maxBytes 1 (min str.length maxBytes) 1
    str.take bestLength :: safeStringChunk (str.drop bestLength) maxBytes
termination_by str.length
decreasing_by
  have hb : ∀ fuel left right best, right + 1 - left ≤ fuel → 1 ≤ left → 1 ≤ best →
      1 ≤ bsearch str maxBytes left right best := by
    intro fuel
    induction fuel with
    | zero =>
        intro left right best hf hl hbest
        rw [bsearch]
        have : ¬ left ≤ right := by omega
        simp [this, hbest]
    | succ n ih =>
        intro left right best hf hl hbest
        rw [bsearch]
        by_cases hlr : left ≤ right
        · have hml : left ≤ (left + right) / 2 := by
            rw [Nat.le_div_iff_mul_le (by norm_num : 0 < 2)]
            omega
          have hmr : (left + right) / 2 ≤ right := by
            have h2 : left + right ≤ right * 2 := by omega
            calc (left + right) / 2 ≤ right * 2 / 2 := Nat.div_le_div_right h2
              _ = right := Nat.mul_div_cancel right (by norm_num)
          simp only [hlr, if_true]
          by_cases hp : utf8Len (List.take ((left + right) / 2) str) ≤ maxBytes
          · simp only [hp, if_true]
            exact ih _ _ _ (by omega) (by omega) (by omega)
          · simp only [hp, if_false]
            exact ih _ _ _ (by omega) hl hbest
        · simp [hlr, hbest]
  have h1 : 1 ≤ bsearch str maxBytes 1 (min str.length maxBytes) 1 :=
    hb (min str.length maxBytes + 1) 1 (min str.length maxBytes) 1 (by omega)
      (by omega) (by omega)
  have hne : str.length ≠ 0 := by
    intro h0
    exact ‹¬ str = []› (List.eq_nil_of_length_eq_zero h0)
  simp only [List.length_drop]
  omega

/-- Cloudflare Workers WebSocket message-size ceiling (chunk-utils.ts line 4). -/
def MAX_MESSAGE_SIZE : Nat := 1024 * 1024

/-- Per-chunk payload budget (chunk-utils.ts line 5). -/
def CHUNK_SIZE : Nat := 768 * 1024

/-- `MessageChunker.needsChunking` (chunk-utils.ts lines 75–77). -/
def needsChunking (message : JSStr) : Bool :=
  decide (MAX_MESSAGE_SIZE < utf8Len message)

/-- The `type` discriminant of `WebSocketMessage` (types.ts line 39). -/
inductive MsgType : Type where
  | request | response | chunk | chunk_complete
  | sse_start | sse_chunk | sse_end | ping | pong
deriving DecidableEq, Repr

/-- `ChunkData` (types.ts lines 66–72). -/
structure ChunkData : Type where
  messageId : JSStr
  chunkIndex : Nat
  totalChunks : Nat
  chunk : JSStr
  originalType : MsgType
deriving DecidableEq, Repr

/-- A `WebSocketMessage` (types.ts lines 38–42): a frame of type `chunk`
carrying `ChunkData`, or any other frame, whose payload is abstracted to a
type parameter `P` (the chunker never inspects it, only its JSON
serialization). -/
inductive WSMessage (P : Type) : Type where
  | chunkMsg (data : ChunkData)
  | plain (t : MsgType) (p : P)
deriving DecidableEq

/-- The `type` field of a frame. -/
def msgTypeOf {P : Type} : WSMessage P → MsgType
  | .chunkMsg _ => .chunk
  | .plain t _ => t

/-- `MessageChunker.chunkMessage` (chunk-utils.ts lines 81–110).
`stringify` stands for `JSON.stringify`, `mid` for the caller-supplied
`messageId`.  The source's `for` loop over `chunks` becomes a map over
`List.range`. -/
def chunkMessage {P : Type} (stringify : WSMessage P → JSStr)
    (originalMessage : WSMessage P) (mid : JSStr) : List (WSMessage P) :=
  let messageString := stringify originalMessage
  if ¬ needsChunking messageString then [originalMessage]
  else
    let chunks := safeStringChunk messageString CHUNK_SIZE
    let totalChunks := chunks.length
    (List.range totalChunks).map fun i =>
      WSMessage.chunkMsg
        ⟨mid, i, totalChunks, chunks.getD i [], msgTypeOf originalMessage⟩

/-- The per-`messageId` assembly record of `MessageChunker.chunks`
(chunk-utils.ts lines 61–70).  `chunks` is a JS `Array(totalChunks)` whose
slots may still be empty (`undefined`), hence `List (Option JSStr)`. -/
structure MessageInfo : Type where
  chunks : List (Option JSStr)
  totalChunks : Nat
  originalType : MsgType
  receivedChunks : Nat
  createdAt : Int
deriving DecidableEq, Repr

/-- The `Map<string, …>` of assemblies, as an insertion-ordered association
list (JS `Map` iteration order). -/
abbrev ChunkTable := List (JSStr × MessageInfo)

/-- `Map.has`. -/
def tblHas (t : ChunkTable) (k : JSStr) : Bool :=
  t.any fun e => decide (e.1 = k)

/-- `Map.get`. -/
def tblGet (t : ChunkTable) (k : JSStr) : Option MessageInfo :=
  (t.find? fun e => decide (e.1 = k)).map (·.2)

/-- `Map.set`: replace in place if present, else append. -/
def tblSet (t : ChunkTable) (k : JSStr) (v : MessageInfo) : ChunkTable :=
  if tblHas t k then t.map (fun e => if e.1 = k then (k, v) else e)
  else t ++ [(k, v)]

/-- `Map.delete`. -/
def tblDelete (t : ChunkTable) (k : JSStr) : ChunkTable :=
  t.filter fun e => decide (e.1 ≠ k)

/-- JS array element assignment `arr[i] = v`: overwrite in range, otherwise
grow the array with empty slots up to index `i`. -/
def setSlot (l : List (Option JSStr)) (i : Nat) (v : JSStr) :
    List (Option JSStr) :=
  if i < l.length then l.set i (some v)
  else l ++ List.replicate (i - l.length) none ++ [some v]

/-- `messageInfo.chunks.join('')`: JS `Array.join` renders an empty slot as
the empty string. -/
def joinSlots (l : List (Option JSStr)) : JSStr :=
  (l.map fun o => o.getD []).flatten

/-- `MessageChunker.receiveChunk` (chunk-utils.ts lines 115–171).
`parse` stands for `JSON.parse` (`none` = parse threw), `now` for
`Date.now()`.  The opportunistic `Math.random() < 0.1` garbage collection
at the top only evicts assemblies older than 30 s (or beyond the 100-entry
cap); it is environment-scheduled and modelled as a separate operation, so
this function is the deterministic data path.  Note that the source
increments `receivedChunks` unconditionally and compares it against the
*incoming* frame's `totalChunks`, exactly as modelled here. -/
def receiveChunk {P : Type} (parse : JSStr → Option (WSMessage P)) (now : Int)
    (st : ChunkTable) (cd : ChunkData) : ChunkTable × Option (WSMessage P) :=
  let st1 :=
    if tblHas st cd.messageId then st
    else tblSet st cd.messageId
      ⟨List.replicate cd.totalChunks none, cd.totalChunks, cd.originalType,
        0, now⟩
  match tblGet st1 cd.messageId with
  | none => (st1, none)
  | some messageInfo =>
      let info2 : MessageInfo :=
        { messageInfo with
            chunks := setSlot messageInfo.chunks cd.chunkIndex cd.chunk
            receivedChunks := messageInfo.receivedChunks + 1 }
      let st2 := tblSet st1 cd.messageId info2
      if info2.receivedChunks = cd.totalChunks then
        match parse (joinSlots info2.chunks) with
        | some originalMessage => (tblDelete st2 cd.messageId, some originalMessage)
        | none => (tblDelete st2 cd.messageId, none)
      else (st2, none)

/-- The WebSocket message handler's chunk demultiplexing (tunnel.ts lines
190–206): a frame of type `chunk` goes to `receiveChunk`; any other frame
is delivered directly. -/
def deliverMessage {P : Type} (parse : JSStr → Option (WSMessage P))
    (now : Int) (st : ChunkTable) (msg : WSMessage P) :
    ChunkTable × Option (WSMessage P) :=
  match msg with
  | .chunkMsg cd => receiveChunk parse now st cd
  | .plain t p => (st, some (WSMessage.plain t p))

/-- Deliver a sequence of frames, collecting the logical frames that come
out of the demultiplexer. -/
def runDeliver {P : Type} (parse : JSStr → Option (WSMessage P)) (now : Int) :
    ChunkTable → List (WSMessage P) → ChunkTable × List (WSMessage P)
  | st, [] => (st, [])
  | st, msg :: rest =>
      let r1 := deliverMessage parse now st msg
      let r2 := runDeliver parse now r1.1 rest
      (r2.1, r1.2.toList ++ r2.2)

/-! ## Tunnel session (tunnel.ts) -/

/-- `startsWithL l sub`: does `l` start with `sub`? (helper for
JavaScript's `String.prototype.includes`). -/
def startsWithL : List Char → List Char → Bool
  | _, [] => true
  | [], _ :: _ => false
  | a :: as, b :: bs => decide (a = b) && startsWithL as bs

/-- Contiguous-substring test on character lists. -/
def includesL : List Char → List Char → Bool
  | [], sub => startsWithL [] sub
  | a :: as, sub => startsWithL (a :: as) sub || includesL as sub

/-- JavaScript `s.includes(sub)`. -/
def includes (s sub : String) : Bool := includesL s.toList sub.toList

/-- `ProxyRequest` (types.ts lines 22–28). -/
structure ProxyRequest : Type where
  id : String
  method : String
  path : String
  headers : List (String × String)
  body : Option String
deriving DecidableEq, Repr

/-- The value of one field of a JSON body object built by the error paths
of tunnel.ts: a string, a number, or `new Date(now).toISOString()`. -/
inductive JBodyVal : Type where
  | str (s : String)
  | num (n : Int)
  | timestamp (now : Int)
deriving DecidableEq, Repr

/-- The body of a `ProxyResponse`: either plain text or the
`JSON.stringify` of an object literal, kept in structured form. -/
inductive RespBody : Type where
  | text (s : String)
  | jsonObj (fields : List (String × JBodyVal))
deriving DecidableEq, Repr

/-- `ProxyResponse` (types.ts lines 30–36). -/
structure ProxyResponse : Type where
  id : String
  status : Nat
  headers : List (String × String)
  body : RespBody
  isBase64 : Option Bool
deriving DecidableEq, Repr

/-- Header / object-key lookup on a flat string map. -/
def lookupHeader (hs : List (String × String)) (k : String) : Option String :=
  (hs.find? fun e => decide (e.1 = k)).map (·.2)

/-- The field names of a JSON body object, in order. -/
def bodyKeys : RespBody → List String
  | .text _ => []
  | .jsonObj fields => fields.map Prod.fst

/-- The circuit-breaker portion of the `Tunnel` state (tunnel.ts lines
28–32). -/
structure BreakerState : Type where
  consecutiveErrors : Nat
  lastErrorTime : Int
  isCircuitOpen : Bool
deriving DecidableEq, Repr

/-- `circuitBreakerThreshold` (tunnel.ts line 30). -/
def circuitBreakerThreshold : Nat := 5

/-- `circuitBreakerCooldown` in milliseconds (tunnel.ts line 31). -/
def circuitBreakerCooldown : Int := 30000

/-- `Tunnel.resetCircuitBreaker` (tunnel.ts lines 1282–1292); the returned
flag is whether the `circuit-breaker-closed` event is emitted. -/
def resetCircuitBreaker (s : BreakerState) : BreakerState × Bool :=
  (⟨0, 0, false⟩, s.isCircuitOpen)

/-- `Tunnel.recordError` (tunnel.ts lines 1255–1267); the returned flag is
whether the `circuit-breaker-open` event is emitted. -/
def recordError (s : BreakerState) (now : Int) : BreakerState × Bool :=
  let s1 : BreakerState :=
    { s with consecutiveErrors := s.consecutiveErrors + 1, lastErrorTime := now }
  if circuitBreakerThreshold ≤ s1.consecutiveErrors ∧ ¬ s1.isCircuitOpen then
    ({ s1 with isCircuitOpen := true }, true)
  else (s1, false)

/-- `Tunnel.recordSuccess` (tunnel.ts lines 1272–1277). -/
def recordSuccess (s : BreakerState) : BreakerState × Bool :=
  if 0 < s.consecutiveErrors ∨ s.isCircuitOpen then resetCircuitBreaker s
  else (s, false)

/-- `Tunnel.isCircuitBreakerOpen` (tunnel.ts lines 1239–1250): returns the
(possibly self-reset) breaker state and the probe result. -/
def isCircuitBreakerOpen (s : BreakerState) (now : Int) : BreakerState × Bool :=
  if ¬ s.isCircuitOpen then (s, false)
  else if circuitBreakerCooldown < now - s.lastErrorTime then
    ((resetCircuitBreaker s).1, false)
  else (s, true)

/-- SSE detection (tunnel.ts lines 314–317 and 585–588): `Accept` contains
`text/event-stream`, or the path contains `/sse`, or `Cache-Control` equals
`no-cache`.  `request.headers.accept` is an optional property access,
whence the `Option.map … |>.getD false`. -/
def isSSERequest (request : ProxyRequest) : Bool :=
  (((lookupHeader request.headers "accept").map
      fun v => includes v "text/event-stream").getD false)
  || includes request.path "/sse"
  || decide (lookupHeader request.headers "cache-control" = some "no-cache")

/-- The 503 frame synthesized when the breaker is open (tunnel.ts lines
293–308). -/
def circuitBreakerErrorResponse (requestId : String) (now : Int) :
    ProxyResponse :=
  { id := requestId
    status := 503
    headers :=
      [("Content-Type", "application/json"),
       ("X-Error-Type", "circuit-breaker-open"),
       ("Retry-After", toString ((circuitBreakerCooldown.toNat + 999) / 1000))]
    body := .jsonObj
      [("error", .str "Service temporarily unavailable - Local server appears to be down"),
       ("errorType", .str "circuit-breaker-open"),
       ("requestId", .str requestId),
       ("retryAfterSeconds", .num ((circuitBreakerCooldown.toNat + 999 : Nat) / 1000)),
       ("timestamp", .timestamp now)]
    isBase64 := none }

/-- Status, human message and `errorType` chosen from the error-message
substring (tunnel.ts lines 354–380). -/
def classifyForwardError (emsg : String) : Nat × String × String :=
  if includes emsg "timeout" then
    (504, "Gateway Timeout - Local server did not respond in time", "timeout")
  else if includes emsg "ECONNREFUSED" then
    (502, "Bad Gateway - Local server is not running or not accepting connections",
     "connection-refused")
  else if includes emsg "ENOTFOUND" then
    (502, "Bad Gateway - Local server host not found", "host-not-found")
  else if includes emsg "ECONNRESET" then
    (502, "Bad Gateway - Connection was reset by local server", "connection-reset")
  else if includes emsg "ENETUNREACH" || includes emsg "EHOSTUNREACH" then
    (502, "Bad Gateway - Local server network unreachable", "network-unreachable")
  else (500, "Internal Server Error", "unknown-error")

/-- The error response frame synthesized on retry exhaustion or a
non-retryable error (tunnel.ts lines 382–398). -/
def forwardErrorResponse (localHost : Option String) (port : Nat)
    (requestId : String) (now : Int) (emsg : String) : ProxyResponse :=
  let c := classifyForwardError emsg
  let server := (localHost.getD "localhost") ++ ":" ++ toString port
  { id := requestId
    status := c.1
    headers :=
      [("Content-Type", "application/json"),
       ("X-Error-Type", c.2.2),
       ("X-Local-Server", server)]
    body := .jsonObj
      [("error", .str c.2.1),
       ("errorType", .str c.2.2),
       ("requestId", .str requestId),
       ("localServer", .str server),
       ("timestamp", .timestamp now),
       ("details", .str emsg)]
    isBase64 := none }

/-- The observable dispatch of `handleProxyRequest`. -/
inductive ProxyAction : Type where
  | sendResp (r : ProxyResponse)
  | sseForward
  | forwardToLocal
deriving DecidableEq, Repr

/-- The synchronous dispatch prefix of `Tunnel.handleProxyRequest`
(tunnel.ts lines 283–338): the circuit-breaker gate, SSE classification
and the `request` event.  The (asynchronous) forwarding itself and its
success / error continuations are outside this function and are represented
by the `sseForward` / `forwardToLocal` actions; `sendResp r` represents a
call `this.sendResponse(r)`.  The returned string list is the emitted
events. -/
def handleProxyRequestGate (breaker : BreakerState) (now : Int)
    (request : ProxyRequest) : BreakerState × List ProxyAction × List String :=
  let g := isCircuitBreakerOpen breaker now
  if g.2 then
    (g.1, [.sendResp (circuitBreakerErrorResponse request.id now)], [])
  else if isSSERequest request then (g.1, [.sseForward], ["request"])
  else (g.1, [.forwardToLocal], ["request"])

/-- The adaptive timeout computation of `forwardToLocalServer` (tunnel.ts
lines 583–608), over exact rational arithmetic (JS numbers on these ranges
are exact for the claim's inputs).  `baseTimeout` is
`options.timeout || 15000`, `retryCount` the retry counter. -/
def adaptiveTimeout (baseTimeout : Rat) (request : ProxyRequest)
    (retryCount : Nat) : Rat :=
  let t : Rat :=
    if isSSERequest request then 3600000
    else if includes request.path "/api/" && decide (request.method = "GET") then
      min baseTimeout 60000
    else if includes request.path "/upload" || decide (request.method = "POST")
        || decide (request.method = "PUT") then
      min (baseTimeout * 2) 180000
    else if 0 < retryCount then
      min (baseTimeout * (3 / 2 : Rat) ^ retryCount) 60000
    else baseTimeout
  match request.body with
  | some b =>
      if 50000 < b.length then
        min (t * min (1 + (b.length : Rat) / 500000) 2) 180000
      else t
  | none => t

/-- Modelled from the claim's wording (spec §4.3 step 4), for comparison
with `adaptiveTimeout`: first matching rule (SSE; GET with `/api/`; POST or
PUT or `/upload`; retry), then the large-body multiplier. -/
def specAdaptiveTimeout (base : Rat) (request : ProxyRequest)
    (retry : Nat) : Rat :=
  let ruled : Rat :=
    if isSSERequest request then 3600000
    else if decide (request.method = "GET") && includes request.path "/api/" then
      min base 60000
    else if decide (request.method = "POST") || decide (request.method = "PUT")
        || includes request.path "/upload" then
      min (base * 2) 180000
    else if 0 < retry then min (base * (3 / 2 : Rat) ^ retry) 60000
    else base
  match request.body with
  | some b =>
      if 50000 < b.length then
        min (ruled * min (1 + (b.length : Rat) / 500000) 2) 180000
      else ruled
  | none => ruled

/-- `ws` WebSocket ready states. -/
inductive WsReadyState : Type where
  | CONNECTING | OPEN | CLOSING | CLOSED
deriving DecidableEq, Repr

/-- `healthCheckCache` (tunnel.ts lines 35–39). -/
structure HealthCache : Type where
  isHealthy : Bool
  lastCheck : Int
  healthPath : Option String
deriving DecidableEq, Repr

/-- The mutable session state of a `Tunnel` that the lifecycle claims
touch (tunnel.ts lines 15–40).  Timers are modelled by whether they are
armed; the WebSocket by its ready state, when one exists. -/
structure SessionState : Type where
  closed : Bool
  websocket : Option WsReadyState
  reconnectTimeout : Bool
  keepAliveInterval : Bool
  localServer : Bool
  breaker : BreakerState
  healthCheckCache : HealthCache
  chunkTable : ChunkTable
  reconnectAttempts : Nat
deriving DecidableEq, Repr

/-- `Tunnel.sendResponse` (tunnel.ts lines 907–941).  `stringify` stands
for `JSON.stringify`, `mid` for `messageChunker.generateMessageId()`.
Returns the new session state, the strings written to the WebSocket and
the events emitted (the source emits none here; send errors are caught and
only logged). -/
def sendResponse (stringify : WSMessage ProxyResponse → JSStr) (mid : JSStr)
    (st : SessionState) (response : ProxyResponse) :
    SessionState × List JSStr × List String :=
  match st.websocket with
  | some ws =>
      if ws = WsReadyState.OPEN then
        let message : WSMessage ProxyResponse := .plain .response response
        let chunkMessages := chunkMessage stringify message mid
        if chunkMessages.length = 1 then (st, [stringify message], [])
        else (st, chunkMessages.map stringify, [])
      else (st, [], [])
  | none => (st, [], [])

/-- `Tunnel.close` (tunnel.ts lines 967–1039): set `closed`, reset the
breaker, clear the health cache, clear both timers, drop the WebSocket
(its actual close is scheduled asynchronously), close the local server,
clear all chunk assemblies, and emit `close`.  The returned list is the
events emitted by this call, in order. -/
def close (st : SessionState) : SessionState × List String :=
  let r := resetCircuitBreaker st.breaker
  ({ st with
      closed := true
      breaker := r.1
      healthCheckCache := ⟨false, 0, none⟩
      reconnectTimeout := false
      keepAliveInterval := false
      websocket := none
      localServer := false
      chunkTable := [] },
   (if r.2 then ["circuit-breaker-closed"] else []) ++ ["close"])

/-! ## Concrete instances and proof-support definitions -/

/-- The frame emitted by `chunkMessage` for chunk index `i` of the split
`cs` (abbreviation for the statements below). -/
def chunkFrame {P : Type} (mid : JSStr) (cs : List JSStr) (t : MsgType)
    (i : Nat) : WSMessage P :=
  .chunkMsg ⟨mid, i, cs.length, cs.getD i [], t⟩

/-- The chunk index carried by a frame (0 for non-chunk frames); used to
recover the delivery order from a permutation of chunk frames. -/
def frameIndex {P : Type} : WSMessage P → Nat
  | .chunkMsg c => c.chunkIndex
  | .plain _ _ => 0

/-- The slot array of an assembly that has received exactly the chunk
indices in `done` out of the split `cs` (proof abbreviation). -/
def slotsFor (cs : List JSStr) (done : Finset Nat) : List (Option JSStr) :=
  (List.range cs.length).map fun i => if i ∈ done then cs.get? i else none

/-- The assembly record after receiving exactly the indices in `done`
(proof abbreviation). -/
def infoOf (cs : List JSStr) (t : MsgType) (now : Int) (done : Finset Nat) :
    MessageInfo :=
  ⟨slotsFor cs done, cs.length, t, done.card, now⟩

/-- Does some chunk boundary fall between a high surrogate and the low
surrogate that completes it — i.e. inside one code point? -/
def splitsPair : List JSStr → Bool
  | c1 :: c2 :: rest =>
      (match c1.getLast?, c2.head? with
       | some u, some v => isHighSurrogate u && isLowSurrogate v
       | _, _ => false) || splitsPair (c2 :: rest)
  | _ => false

/-- A serialized frame of 1,048,577 UTF-8 bytes: 786,429 `a`s, then U+1D11E
(UTF-16 surrogate pair `0xD834 0xDD1E`, 4 UTF-8 bytes), then 262,144 more
`a`s.  Exceeds `MAX_MESSAGE_SIZE` by one byte, and its largest
768-KiB-bounded prefix ends between the two surrogate halves. -/
def sBad : JSStr :=
  List.replicate 786429 0x61 ++ 0xD834 :: 0xDD1E :: List.replicate 262144 0x61

/-- A `JSON.parse` that always fails (concrete instance for statements
whose conclusion does not depend on the parse result). -/
def parseNoneU : JSStr → Option (WSMessage Unit) := fun _ => none

/-- Chunk 0 of 2 of some message (concrete duplicate-delivery input). -/
def dupChunk : ChunkData := ⟨[109], 0, 2, [65], .response⟩

/-- A live session: WebSocket open, both timers armed, breaker closed. -/
def freshSession : SessionState :=
  { closed := false
    websocket := some .OPEN
    reconnectTimeout := true
    keepAliveInterval := true
    localServer := true
    breaker := ⟨0, 0, false⟩
    healthCheckCache := ⟨false, 0, none⟩
    chunkTable := []
    reconnectAttempts := 0 }

/-- A session whose WebSocket is gone. -/
def noWsSession : SessionState := { freshSession with websocket := none }

/-- Concrete trivial serializer (witness instance). -/
def stringifyEmpty : WSMessage Unit → JSStr := fun _ => []

/-- Concrete response frame (witness instance). -/
def respFrameU : WSMessage Unit := .plain .response ()

/-- Concrete parser matching `stringifyEmpty` on `respFrameU` (witness
instance). -/
def parseConstU : JSStr → Option (WSMessage Unit) := fun _ => some respFrameU

/-- Concrete trivial serializer for response frames (witness instance). -/
def stringifyRespEmpty : WSMessage ProxyResponse → JSStr := fun _ => []

/-- A concrete 200 response (witness instance). -/
def okResp : ProxyResponse := ⟨"r1", 200, [], .text "ok", none⟩

/-- A concrete request (witness instance). -/
def getReq : ProxyRequest := ⟨"r1", "GET", "/", [], none⟩

/-! ## Lemmas about `utf8Len` -/

theorem utf8Len_nil : utf8Len [] = 0 := rfl

theorem utf8Len_cons_notHigh {u : Nat} (h : isHighSurrogate u = false)
    (t : JSStr) : utf8Len (u :: t) = utf8UnitLen u + utf8Len t := by
  cases t <;> simp [utf8Len, h]

theorem utf8Len_replicate_append (n : Nat) (t : JSStr) :
    utf8Len (List.replicate n 0x61 ++ t) = n + utf8Len t := by
  induction n with
  | zero => simp
  | succ k ih =>
      rw [List.replicate_succ, List.cons_append,
        utf8Len_cons_notHigh (by decide), ih]
      simp [utf8UnitLen]
      omega

theorem utf8Len_replicate (n : Nat) :
    utf8Len (List.replicate n 0x61) = n := by
  have h := utf8Len_replicate_append n []
  simpa using h

theorem utf8Len_pair_cons (t : JSStr) :
    utf8Len (0xD834 :: 0xDD1E :: t) = 4 + utf8Len t := by
  simp [utf8Len, isHighSurrogate, isLowSurrogate]

theorem utf8Len_take_one_le (s : JSStr) : utf8Len (s.take 1) ≤ 3 := by
  cases s with
  | nil => simp [utf8Len]
  | cons u t =>
      show utf8Len [u] ≤ 3
      simp only [utf8Len, utf8UnitLen]
      split_ifs <;> omega

/-! ## Lemmas about `bsearch` -/

theorem bsearch_ge_one (s : JSStr) (maxBytes : Nat) :
    ∀ fuel left right best, right + 1 - left ≤ fuel → 1 ≤ left → 1 ≤ best →
      1 ≤ bsearch s maxBytes left right best := by
  intro fuel
  induction fuel with
  | zero =>
      intro left right best hf _hl hbest
      rw [bsearch]
      have : ¬ left ≤ right := by omega
      simp [this, hbest]
  | succ n ih =>
      intro left right best hf hl hbest
      rw [bsearch]
      by_cases hlr : left ≤ right
      · have hml : left ≤ (left + right) / 2 := by
          rw [Nat.le_div_iff_mul_le (by norm_num : 0 < 2)]
          omega
        have hmr : (left + right) / 2 ≤ right := by
          have h2 : left + right ≤ right * 2 := by omega
          calc (left + right) / 2 ≤ right * 2 / 2 := Nat.div_le_div_right h2
            _ = right := Nat.mul_div_cancel right (by norm_num)
        simp only [hlr, if_true]
        by_cases hp : utf8Len (List.take ((left + right) / 2) s) ≤ maxBytes
        · simp only [hp, if_true]
          exact ih _ _ _ (by omega) (by omega) (by omega)
        · simp only [hp, if_false]
          exact ih _ _ _ (by omega) hl hbest
      · simp [hlr, hbest]

theorem bsearch_take_le (s : JSStr) (maxBytes : Nat) :
    ∀ fuel left right best, right + 1 - left ≤ fuel →
      utf8Len (s.take best) ≤ maxBytes →
      utf8Len (s.take (bsearch s maxBytes left right best)) ≤ maxBytes := by
  intro fuel
  induction fuel with
  | zero =>
      intro left right best hf hbest
      rw [bsearch]
      have : ¬ left ≤ right := by omega
      simp [this, hbest]
  | succ n ih =>
      intro left right best hf hbest
      rw [bsearch]
      by_cases hlr : left ≤ right
      · have hml : left ≤ (left + right) / 2 := by
          rw [Nat.le_div_iff_mul_le (by norm_num : 0 < 2)]
          omega
        have hmr : (left + right) / 2 ≤ right := by
          have h2 : left + right ≤ right * 2 := by omega
          calc (left + right) / 2 ≤ right * 2 / 2 := Nat.div_le_div_right h2
            _ = right := Nat.mul_div_cancel right (by norm_num)
        simp only [hlr, if_true]
        by_cases hp : utf8Len (List.take ((left + right) / 2) s) ≤ maxBytes
        · simp only [hp, if_true]
          exact ih _ _ _ (by omega) hp
        · simp only [hp, if_false]
          have hmid1 : 1 ≤ (left + right) / 2 := by
            by_contra hc
            apply hp
            have h0 : (left + right) / 2 = 0 := by omega
            rw [h0]
            simp [utf8Len]
          have hmeq : (left + right) / 2 - 1 + 1 = (left + right) / 2 :=
            Nat.succ_pred_eq_of_pos hmid1
          have hfl : (left + right) / 2 - 1 + 1 - left ≤ n := by
            rw [hmeq]
            omega
          exact ih _ _ _ hfl hbest
      · simp [hlr, hbest]

theorem bsearch_eq_of_char (s : JSStr) (maxBytes b r0 : Nat)
    (hchar : ∀ x, 1 ≤ x → x ≤ r0 →
      (utf8Len (s.take x) ≤ maxBytes ↔ x ≤ b)) :
    ∀ fuel left right best, right + 1 - left ≤ fuel →
      1 ≤ left → left ≤ b + 1 → best ≤ b → left ≤ best + 1 →
      b ≤ right → right ≤ r0 →
      bsearch s maxBytes left right best = b := by
  intro fuel
  induction fuel with
  | zero =>
      intro left right best hf h1 hlb hbb hlbest hbr hrr0
      rw [bsearch]
      have hnl : ¬ left ≤ right := by omega
      simp only [hnl, if_false]
      omega
  | succ n ih =>
      intro left right best hf h1 hlb hbb hlbest hbr hrr0
      rw [bsearch]
      by_cases hlr : left ≤ right
      · have hml : left ≤ (left + right) / 2 := by
          rw [Nat.le_div_iff_mul_le (by norm_num : 0 < 2)]
          omega
        have hmr : (left + right) / 2 ≤ right := by
          have h2 : left + right ≤ right * 2 := by omega
          calc (left + right) / 2 ≤ right * 2 / 2 := Nat.div_le_div_right h2
            _ = right := Nat.mul_div_cancel right (by norm_num)
        have hmid1 : 1 ≤ (left + right) / 2 := by omega
        have hmidr0 : (left + right) / 2 ≤ r0 := by omega
        have hiff := hchar ((left + right) / 2) hmid1 hmidr0
        simp only [hlr, if_true]
        by_cases hp : utf8Len (List.take ((left + right) / 2) s) ≤ maxBytes
        · have hmb : (left + right) / 2 ≤ b := hiff.mp hp
          simp only [hp, if_true]
          exact ih _ _ _ (by omega) (by omega) (by omega) hmb (by omega)
            hbr hrr0
        · have hmb : ¬ (left + right) / 2 ≤ b := fun hle => hp (hiff.mpr hle)
          simp only [hp, if_false]
          have hmeq : (left + right) / 2 - 1 + 1 = (left + right) / 2 :=
            Nat.succ_pred_eq_of_pos hmid1
          have hfl : (left + right) / 2 - 1 + 1 - left ≤ n := by
            rw [hmeq]
            omega
          exact ih _ _ _ hfl h1 hlb hbb hlbest (by omega) (by omega)
      · simp only [hlr, if_false]
        omega

/-! ## Lemmas about `safeStringChunk` -/

theorem safeStringChunk_flatten :
    ∀ fuel (s : JSStr) (maxBytes : Nat), s.length ≤ fuel →
      (safeStringChunk s maxBytes).flatten = s := by
  intro fuel
  induction fuel with
  | zero =>
      intro s maxBytes hf
      have h0 : s = [] := List.eq_nil_of_length_eq_zero (by omega)
      subst h0
      rw [safeStringChunk]
      simp
  | succ n ih =>
      intro s maxBytes hf
      rw [safeStringChunk]
      by_cases h1 : s = []
      · simp [h1]
      · rw [if_neg h1]
        by_cases h2 : utf8Len s ≤ maxBytes
        · rw [if_pos h2]
          simp
        · rw [if_neg h2]
          show (s.take (bsearch s maxBytes 1 (min s.length maxBytes) 1) ::
            safeStringChunk
              (s.drop (bsearch s maxBytes 1 (min s.length maxBytes) 1))
              maxBytes).flatten = s
          have hone : 1 ≤ bsearch s maxBytes 1 (min s.length maxBytes) 1 :=
            bsearch_ge_one s maxBytes (min s.length maxBytes + 1 - 1) 1
              (min s.length maxBytes) 1 le_rfl le_rfl le_rfl
          have hslen : 1 ≤ s.length := by
            rcases Nat.eq_zero_or_pos s.length with h0 | h0
            · exact absurd (List.eq_nil_of_length_eq_zero h0) h1
            · exact h0
          have hdrop :
              (s.drop (bsearch s maxBytes 1 (min s.length maxBytes) 1)).length
                ≤ n := by
            simp only [List.length_drop]
            omega
          rw [List.flatten_cons, ih _ _ hdrop]
          exact List.take_append_drop _ s

theorem safeStringChunk_ne_nil {s : JSStr} {maxBytes : Nat} (h : s ≠ []) :
    safeStringChunk s maxBytes ≠ [] := by
  rw [safeStringChunk]
  rw [if_neg h]
  split_ifs <;> simp

theorem safeStringChunk_size_le :
    ∀ fuel (s : JSStr) (maxBytes : Nat), s.length ≤ fuel → 3 ≤ maxBytes →
      ∀ c ∈ safeStringChunk s maxBytes, utf8Len c ≤ maxBytes := by
  intro fuel
  induction fuel with
  | zero =>
      intro s maxBytes hf _h3 c hc
      have h0 : s = [] := List.eq_nil_of_length_eq_zero (by omega)
      subst h0
      rw [safeStringChunk] at hc
      simp at hc
  | succ n ih =>
      intro s maxBytes hf h3 c hc
      rw [safeStringChunk] at hc
      by_cases h1 : s = []
      · rw [if_pos h1] at hc
        simp at hc
      · rw [if_neg h1] at hc
        by_cases h2 : utf8Len s ≤ maxBytes
        · rw [if_pos h2] at hc
          simp at hc
          subst hc
          exact h2
        · rw [if_neg h2] at hc
          have hc2 : c = s.take (bsearch s maxBytes 1 (min s.length maxBytes) 1)
              ∨ c ∈ safeStringChunk
                (s.drop (bsearch s maxBytes 1 (min s.length maxBytes) 1))
                maxBytes := by
            simpa using hc
          rcases hc2 with hc2 | hc2
          · subst hc2
            have hinit : utf8Len (s.take 1) ≤ maxBytes :=
              le_trans (utf8Len_take_one_le s) h3
            exact bsearch_take_le s maxBytes (min s.length maxBytes + 1 - 1) 1
              (min s.length maxBytes) 1 le_rfl hinit
          · have hone : 1 ≤ bsearch s maxBytes 1 (min s.length maxBytes) 1 :=
              bsearch_ge_one s maxBytes (min s.length maxBytes + 1 - 1) 1
                (min s.length maxBytes) 1 le_rfl le_rfl le_rfl
            have hslen : 1 ≤ s.length := by
              rcases Nat.eq_zero_or_pos s.length with h0 | h0
              · exact absurd (List.eq_nil_of_length_eq_zero h0) h1
              · exact h0
            have hdrop :
                (s.drop (bsearch s maxBytes 1 (min s.length maxBytes) 1)).length
                  ≤ n := by
              simp only [List.length_drop]
              omega
            exact ih _ _ hdrop h3 c hc2

/-! ## Lemmas about `chunkMessage` -/

theorem needsChunking_false {s : JSStr} (h : utf8Len s ≤ MAX_MESSAGE_SIZE) :
    needsChunking s = false := by
  simp [needsChunking]
  omega

theorem needsChunking_true {s : JSStr} (h : MAX_MESSAGE_SIZE < utf8Len s) :
    needsChunking s = true := by
  simp [needsChunking]
  omega

theorem chunkMessage_small {P : Type} (stringify : WSMessage P → JSStr)
    (m : WSMessage P) (mid : JSStr)
    (h : needsChunking (stringify m) = false) :
    chunkMessage stringify m mid = [m] := by
  simp [chunkMessage, h]

theorem chunkMessage_big {P : Type} (stringify : WSMessage P → JSStr)
    (m : WSMessage P) (mid : JSStr)
    (h : needsChunking (stringify m) = true) :
    chunkMessage stringify m mid =
      (List.range (safeStringChunk (stringify m) CHUNK_SIZE).length).map
        (chunkFrame mid (safeStringChunk (stringify m) CHUNK_SIZE)
          (msgTypeOf m)) := by
  simp [chunkMessage, h, chunkFrame]

theorem getElem?_eq_some_getD {α : Type} [Inhabited α] (l : List α) (n : Nat)
    (d : α) (h : n < l.length) : l[n]? = some (l.getD n d) := by
  rw [List.getD_eq_getElem?_getD]
  cases hx : l[n]? with
  | none =>
      rw [List.getElem?_eq_none_iff] at hx
      omega
  | some v => simp

/-- C4: a frame whose serialization is at most 1 MiB in UTF-8 is returned
unchanged as a single frame; a larger frame is turned into exactly the
chunks of `safeStringChunk`, all frames of type `chunk`, sharing the one
`messageId`, with contiguous `chunkIndex` `0..N-1`, `totalChunks = N`,
`originalType` the original frame's type, and every chunk payload at most
768 KiB when UTF-8-encoded. -/
theorem chunkMessage_envelope {P : Type} (stringify : WSMessage P → JSStr)
    (m : WSMessage P) (mid : JSStr) :
    (utf8Len (stringify m) ≤ MAX_MESSAGE_SIZE →
      chunkMessage stringify m mid = [m]) ∧
    (MAX_MESSAGE_SIZE < utf8Len (stringify m) →
      (chunkMessage stringify m mid).length =
        (safeStringChunk (stringify m) CHUNK_SIZE).length ∧
      (∀ k : Nat, (chunkMessage stringify m mid)[k]? =
        ((safeStringChunk (stringify m) CHUNK_SIZE)[k]?).map fun c =>
          WSMessage.chunkMsg
            ⟨mid, k, (safeStringChunk (stringify m) CHUNK_SIZE).length, c,
              msgTypeOf m⟩) ∧
      (∀ c ∈ safeStringChunk (stringify m) CHUNK_SIZE,
        utf8Len c ≤ CHUNK_SIZE)) := by
  constructor
  · intro h
    exact chunkMessage_small stringify m mid (needsChunking_false h)
  · intro h
    rw [chunkMessage_big stringify m mid (needsChunking_true h)]
    refine ⟨by simp, ?_, ?_⟩
    · intro k
      rw [List.getElem?_map]
      by_cases hk : k < (safeStringChunk (stringify m) CHUNK_SIZE).length
      · rw [List.getElem?_range hk,
          getElem?_eq_some_getD (safeStringChunk (stringify m) CHUNK_SIZE) k
            [] hk]
        simp [chunkFrame]
      · have h1 : (List.range
            (safeStringChunk (stringify m) CHUNK_SIZE).length)[k]? = none := by
          rw [List.getElem?_eq_none_iff]
          simpa using hk
        have h2 : (safeStringChunk (stringify m) CHUNK_SIZE)[k]? = none := by
          rw [List.getElem?_eq_none_iff]
          omega
        rw [h1, h2]
        simp
    · exact safeStringChunk_size_le (stringify m).length (stringify m)
        CHUNK_SIZE le_rfl (by norm_num [CHUNK_SIZE])

/-- Witness for C4 at a concrete small frame. -/
theorem chunkMessage_envelope_witness :
    utf8Len (stringifyEmpty respFrameU) ≤ MAX_MESSAGE_SIZE ∧
    chunkMessage stringifyEmpty respFrameU [] = [respFrameU] :=
  ⟨by decide, (chunkMessage_envelope stringifyEmpty respFrameU []).1 (by decide)⟩

/-! ## Lemmas about the assembly table -/

theorem slotsFor_length (cs : List JSStr) (done : Finset Nat) :
    (slotsFor cs done).length = cs.length := by
  simp [slotsFor]

theorem slotsFor_empty (cs : List JSStr) :
    slotsFor cs ∅ = List.replicate cs.length none := by
  simp [slotsFor, List.map_const']

theorem slotsFor_getElem? (cs : List JSStr) (done : Finset Nat) (k : Nat) :
    (slotsFor cs done)[k]? =
      if k < cs.length then some (if k ∈ done then cs[k]? else none)
      else none := by
  rw [slotsFor, List.getElem?_map]
  by_cases hk : k < cs.length
  · rw [List.getElem?_range hk]
    simp [hk]
  · have h0 : (List.range cs.length)[k]? = none := by
      rw [List.getElem?_eq_none_iff]
      simpa using hk
    rw [h0]
    simp [hk]
theorem setSlot_slotsFor (cs : List JSStr) (done : Finset Nat) (j : Nat)
    (hj : j < cs.length) :
    setSlot (slotsFor cs done) j (cs.getD j []) =
      slotsFor cs (insert j done) := by
  have hlen : j < (slotsFor cs done).length := by
    rw [slotsFor_length]
    exact hj
  rw [setSlot, if_pos hlen]
  apply List.ext_getElem?
  intro k
  by_cases hkj : j = k
  · subst hkj
    rw [@List.getElem?_set_self _ _ _ _ hlen, slotsFor_getElem?]
    rw [if_pos hj, if_pos (Finset.mem_insert_self j done)]
    rw [getElem?_eq_some_getD cs j [] hj]
  · rw [List.getElem?_set_ne hkj, slotsFor_getElem?, slotsFor_getElem?]
    by_cases hk : k < cs.length
    · rw [if_pos hk, if_pos hk]
      have hiff : (k ∈ done) ↔ (k ∈ insert j done) := by
        rw [Finset.mem_insert]
        constructor
        · exact Or.inr
        · rintro (h | h)
          · exact absurd h.symm hkj
          · exact h
      congr 1
      exact if_congr hiff rfl rfl
    · rw [if_neg hk, if_neg hk]

theorem slotsFor_full (cs : List JSStr) :
    slotsFor cs (Finset.range cs.length) = cs.map some := by
  apply List.ext_getElem?
  intro k
  rw [slotsFor_getElem?, List.getElem?_map]
  by_cases hk : k < cs.length
  · rw [if_pos hk, if_pos (Finset.mem_range.mpr hk)]
    rw [getElem?_eq_some_getD cs k [] hk]
    simp
  · rw [if_neg hk]
    have h0 : cs[k]? = none := by
      rw [List.getElem?_eq_none_iff]
      omega
    rw [h0]
    simp

theorem joinSlots_map_some (cs : List JSStr) :
    joinSlots (cs.map some) = cs.flatten := by
  rw [joinSlots, List.map_map]
  have hcomp : ((fun o : Option JSStr => o.getD []) ∘ some)
      = fun c : JSStr => c := by
    funext c
    simp
  rw [hcomp, List.map_id']

theorem receiveChunk_step {P : Type} (parse : JSStr → Option (WSMessage P))
    (now : Int) (cs : List JSStr) (mid : JSStr) (t : MsgType)
    (done : Finset Nat) (j : Nat) (hj : j < cs.length) (hjd : j ∉ done) :
    receiveChunk parse now [(mid, infoOf cs t now done)]
      ⟨mid, j, cs.length, cs.getD j [], t⟩ =
      if done.card + 1 = cs.length then
        (match parse (joinSlots (slotsFor cs (insert j done))) with
         | some msg => ([], some msg)
         | none => ([], none))
      else ([(mid, infoOf cs t now (insert j done))], none) := by
  have hci : (insert j done).card = done.card + 1 :=
    Finset.card_insert_of_not_mem hjd
  have hslot : setSlot (slotsFor cs done) j (cs.getD j []) =
      slotsFor cs (insert j done) := setSlot_slotsFor cs done j hj
  simp only [receiveChunk, tblHas, tblGet, tblSet, tblDelete, List.any_cons,
    List.any_nil, List.find?, List.filter, decide_True, Bool.true_or,
    if_true, Option.map_some]
  simp only [infoOf]
  simp [hci]
  have hslot2 : setSlot (slotsFor cs done) j (cs[j]?.getD []) =
      slotsFor cs (insert j done) := by
    rw [← List.getD_eq_getElem?_getD]
    exact hslot
  rw [hslot2]

theorem receiveChunk_empty {P : Type} (parse : JSStr → Option (WSMessage P))
    (now : Int) (cs : List JSStr) (mid c : JSStr) (t : MsgType) (j : Nat) :
    receiveChunk parse now ([] : ChunkTable) ⟨mid, j, cs.length, c, t⟩ =
      receiveChunk parse now [(mid, infoOf cs t now ∅)]
        ⟨mid, j, cs.length, c, t⟩ := by
  have hinfo : infoOf cs t now ∅
      = ⟨List.replicate cs.length none, cs.length, t, 0, now⟩ := by
    simp [infoOf, slotsFor_empty]
  rw [hinfo]
  simp [receiveChunk, tblHas, tblGet, tblSet, tblDelete]

theorem runDeliver_assembles {P : Type} (parse : JSStr → Option (WSMessage P))
    (now : Int) (cs : List JSStr) (mid : JSStr) (t : MsgType)
    (m : WSMessage P) (hparse : parse cs.flatten = some m) :
    ∀ (is : List Nat) (done : Finset Nat),
      is ≠ [] → is.Nodup →
      (∀ i ∈ is, i ∉ done) →
      (∀ k, k < cs.length ↔ (k ∈ done ∨ k ∈ is)) →
      runDeliver parse now [(mid, infoOf cs t now done)]
        (is.map (chunkFrame mid cs t)) = ([], [m]) := by
  intro is
  induction is with
  | nil =>
      intro done hne _ _ _
      exact absurd rfl hne
  | cons j rest ih =>
      intro done _hne hnodup hdisj hcover
      have hj : j < cs.length := (hcover j).mpr (Or.inr (by simp))
      have hjd : j ∉ done := hdisj j (by simp)
      have hjrest : j ∉ rest := (List.nodup_cons.mp hnodup).1
      simp only [List.map_cons, runDeliver, deliverMessage, chunkFrame]
      rw [receiveChunk_step parse now cs mid t done j hj hjd]
      by_cases hrest : rest = []
      · subst hrest
        have hins : insert j done = Finset.range cs.length := by
          apply Finset.ext
          intro k
          rw [Finset.mem_insert, Finset.mem_range, hcover k]
          simp
          tauto
        have hfull : done.card + 1 = cs.length := by
          calc done.card + 1 = (insert j done).card :=
                (Finset.card_insert_of_not_mem hjd).symm
            _ = (Finset.range cs.length).card := by rw [hins]
            _ = cs.length := Finset.card_range _
        rw [if_pos hfull, hins, slotsFor_full, joinSlots_map_some, hparse]
        simp [runDeliver]
      · obtain ⟨k0, hk0⟩ := List.exists_mem_of_ne_nil rest hrest
        have hk0N : k0 < cs.length :=
          (hcover k0).mpr (Or.inr (List.mem_cons_of_mem j hk0))
        have hk0j : k0 ≠ j := by
          intro h0
          subst h0
          exact hjrest hk0
        have hk0d : k0 ∉ done := hdisj k0 (List.mem_cons_of_mem j hk0)
        have hk0ins : k0 ∉ insert j done := by
          rw [Finset.mem_insert]
          rintro (h | h)
          · exact hk0j h
          · exact hk0d h
        have hsub : insert j done ⊂ Finset.range cs.length := by
          constructor
          · intro x hx
            rw [Finset.mem_insert] at hx
            rw [Finset.mem_range]
            rcases hx with h | h
            · subst h
              exact hj
            · exact (hcover x).mpr (Or.inl h)
          · intro hsup
            exact hk0ins (hsup (Finset.mem_range.mpr hk0N))
        have hlt : done.card + 1 < cs.length := by
          have := Finset.card_lt_card hsub
          rw [Finset.card_range, Finset.card_insert_of_not_mem hjd] at this
          exact this
        rw [if_neg (by omega)]
        have hrec := ih (insert j done) hrest (List.nodup_cons.mp hnodup).2
          (by
            intro i hi
            rw [Finset.mem_insert]
            rintro (h | h)
            · subst h
              exact hjrest hi
            · exact hdisj i (List.mem_cons_of_mem j hi) h)
          (by
            intro k
            rw [hcover k, Finset.mem_insert]
            constructor
            · rintro (h | h)
              · exact Or.inl (Or.inr h)
              · rcases List.mem_cons.mp h with h2 | h2
                · exact Or.inl (Or.inl h2)
                · exact Or.inr h2
            · rintro (h | h)
              · rcases h with h2 | h2
                · exact Or.inr (List.mem_cons.mpr (Or.inl h2))
                · exact Or.inl h2
              · exact Or.inr (List.mem_cons.mpr (Or.inr h)))
        simp only [runDeliver] at hrec ⊢
        simpa using hrec

/-- C1: round-trip and order independence of the chunker.  For every frame
`m` (with `JSON.parse ∘ JSON.stringify` the identity on it): if its
serialization needs chunking, then delivering the chunk frames emitted by
`chunkMessage` to the receiver in any order — each exactly once, starting
from an empty assembly table — makes the demultiplexer emit exactly the
original frame `m`; if it does not need chunking, the frame is transmitted
unchanged as the single emitted frame. -/
theorem chunker_roundtrip {P : Type} (stringify : WSMessage P → JSStr)
    (parse : JSStr → Option (WSMessage P)) (m : WSMessage P) (mid : JSStr)
    (now : Int) (order : List (WSMessage P))
    (hparse : parse (stringify m) = some m)
    (hperm : order.Perm (chunkMessage stringify m mid)) :
    (needsChunking (stringify m) = false →
      chunkMessage stringify m mid = [m]) ∧
    (needsChunking (stringify m) = true →
      (runDeliver parse now [] order).2 = [m]) := by
  constructor
  · intro h
    exact chunkMessage_small stringify m mid h
  · intro h
    have hmap := chunkMessage_big stringify m mid h
    set cs := safeStringChunk (stringify m) CHUNK_SIZE with hcs
    have hsne : stringify m ≠ [] := by
      intro h0
      rw [h0] at h
      simp [needsChunking, MAX_MESSAGE_SIZE, utf8Len] at h
    have hcsne : cs ≠ [] := safeStringChunk_ne_nil hsne
    have hNpos : 0 < cs.length := List.length_pos.mpr hcsne
    have hflat : cs.flatten = stringify m :=
      safeStringChunk_flatten (stringify m).length (stringify m) CHUNK_SIZE
        le_rfl
    have hparse2 : parse cs.flatten = some m := by
      rw [hflat]
      exact hparse
    have hgf : ∀ i : Nat,
        frameIndex (chunkFrame mid cs (msgTypeOf m) i : WSMessage P) = i :=
      fun i => rfl
    have hperm2 : (order.map frameIndex).Perm (List.range cs.length) := by
      have h1 := hperm.map (@frameIndex P)
      rw [hmap, List.map_map] at h1
      have h2 : (List.range cs.length).map
          (@frameIndex P ∘ @chunkFrame P mid cs (msgTypeOf m)) =
            List.range cs.length := by
        have hfun : (@frameIndex P ∘ @chunkFrame P mid cs (msgTypeOf m))
            = fun i => i := funext hgf
        rw [hfun, List.map_id']
      rw [h2] at h1
      exact h1
    have hmem : ∀ x ∈ order,
        chunkFrame mid cs (msgTypeOf m) (frameIndex x) = x := by
      intro x hx
      have hx2 : x ∈ chunkMessage stringify m mid := hperm.mem_iff.mp hx
      rw [hmap] at hx2
      obtain ⟨i, _, hxi⟩ := List.mem_map.mp hx2
      rw [← hxi, hgf i]
    have horder : order =
        (order.map frameIndex).map (chunkFrame mid cs (msgTypeOf m)) := by
      rw [List.map_map]
      conv_lhs => rw [← List.map_id order]
      exact (List.map_congr_left fun x hx => hmem x hx).symm
    set is := order.map frameIndex with his
    have hisnodup : is.Nodup := hperm2.nodup_iff.mpr (List.nodup_range _)
    have hisne : is ≠ [] := by
      intro h0
      have h2 := hperm2.length_eq
      rw [h0] at h2
      simp at h2
      omega
    have hcover : ∀ k, k < cs.length ↔ (k ∈ (∅ : Finset Nat) ∨ k ∈ is) := by
      intro k
      simp only [Finset.not_mem_empty, false_or]
      rw [hperm2.mem_iff, List.mem_range]
    have hdisj : ∀ i ∈ is, i ∉ (∅ : Finset Nat) := by simp
    have hrun := runDeliver_assembles parse now cs mid (msgTypeOf m) m hparse2
      is ∅ hisne hisnodup hdisj hcover
    obtain ⟨j, rest, hjr⟩ := List.exists_cons_of_ne_nil hisne
    rw [horder, hjr]
    rw [hjr] at hrun
    simp only [List.map_cons, runDeliver, deliverMessage, chunkFrame] at hrun ⊢
    rw [receiveChunk_empty parse now cs mid (cs.getD j []) (msgTypeOf m) j]
    simpa using congrArg Prod.snd hrun

/-- Witness for C1 at a concrete frame and codec. -/
theorem chunker_roundtrip_witness :
    parseConstU (stringifyEmpty respFrameU) = some respFrameU ∧
    (chunkMessage stringifyEmpty respFrameU []).Perm
      (chunkMessage stringifyEmpty respFrameU []) ∧
    (needsChunking (stringifyEmpty respFrameU) = false →
      chunkMessage stringifyEmpty respFrameU [] = [respFrameU]) ∧
    (needsChunking (stringifyEmpty respFrameU) = true →
      (runDeliver parseConstU 0 []
        (chunkMessage stringifyEmpty respFrameU [])).2 = [respFrameU]) :=
  ⟨rfl, List.Perm.refl _,
    (chunker_roundtrip stringifyEmpty parseConstU respFrameU [] 0
      (chunkMessage stringifyEmpty respFrameU []) rfl (List.Perm.refl _)).1,
    (chunker_roundtrip stringifyEmpty parseConstU respFrameU [] 0
      (chunkMessage stringifyEmpty respFrameU []) rfl (List.Perm.refl _)).2⟩

/-- C2 (bug in the source, flagged by the spec): `receiveChunk` increments
`receivedChunks` unconditionally, so delivering the same chunk
(`chunkIndex` 0 of `totalChunks` 2) twice to a fresh chunker makes the
count reach `totalChunks` after only one distinct index: the first call
leaves the assembly with `receivedChunks = 1`, and the duplicate second
call fires the completion branch and destroys the assembly (empty table,
no frame delivered) even though chunk 1 never arrived.  The spec requires
counting each distinct index at most once. -/
theorem receiveChunk_duplicate_overcounts :
    ((receiveChunk parseNoneU 0 [] dupChunk).1.map
      fun e => e.2.receivedChunks) = [1] ∧
    (receiveChunk parseNoneU 0 (receiveChunk parseNoneU 0 [] dupChunk).1
      dupChunk).1 = [] ∧
    (receiveChunk parseNoneU 0 (receiveChunk parseNoneU 0 [] dupChunk).1
      dupChunk).2 = none := by
  decide

/-- C5 counterexample: calling `close()` twice on a live session produces
two `close` events, not one. -/
theorem close_twice_two_close_events :
    ((close freshSession).2 ++ (close (close freshSession).1).2).count
      "close" = 2 ∧
    ¬ ((close freshSession).2 ++ (close (close freshSession).1).2).count
      "close" = 1 := by
  decide

/-- C5 amended: `close()` is idempotent on the session state — a second
call leaves the state unchanged, and after a `close()` no reconnect timer
and no keepalive timer is armed — but every call emits one `close` event,
so two calls emit two `close` events. -/
theorem close_idempotent_state_one_event_per_call (st : SessionState) :
    (close (close st).1).1 = (close st).1 ∧
    (close (close st).1).2 = ["close"] ∧
    (close st).1.reconnectTimeout = false ∧
    (close st).1.keepAliveInterval = false ∧
    (close st).2.count "close" = 1 := by
  refine ⟨?_, ?_, rfl, rfl, ?_⟩
  · simp [close, resetCircuitBreaker]
  · simp [close, resetCircuitBreaker]
  · cases h : st.breaker.isCircuitOpen <;>
      simp [close, resetCircuitBreaker, h, List.count_cons, List.count_nil]

/-! ## Circuit-breaker lemmas -/

theorem recordError_consecutive (s : BreakerState) (t : Int) :
    (recordError s t).1.consecutiveErrors = s.consecutiveErrors + 1 := by
  simp only [recordError]
  split_ifs <;> rfl

theorem recordError_fold_count (ts : List Int) :
    ∀ s : BreakerState,
      (ts.foldl (fun st t => (recordError st t).1) s).consecutiveErrors
        = s.consecutiveErrors + ts.length := by
  induction ts with
  | nil =>
      intro s
      simp
  | cons t ts ih =>
      intro s
      rw [List.foldl_cons, ih, recordError_consecutive]
      simp
      omega

theorem recordError_fold_open (ts : List Int) (hne : ts ≠ []) :
    ∀ s : BreakerState,
      circuitBreakerThreshold ≤ s.consecutiveErrors + ts.length →
      (ts.foldl (fun st t => (recordError st t).1) s).isCircuitOpen
        = true := by
  induction ts with
  | nil => exact absurd rfl hne
  | cons t ts ih =>
      intro s h5
      rw [List.foldl_cons]
      by_cases hts : ts = []
      · subst hts
        simp only [List.foldl_nil]
        simp only [List.length_cons, List.length_nil] at h5
        simp only [recordError]
        split_ifs with hcond
        · rfl
        · rw [not_and_or, not_not] at hcond
          rcases hcond with hcond | hcond
          · refine absurd ?_ hcond
            show circuitBreakerThreshold ≤ s.consecutiveErrors + 1
            omega
          · exact hcond
      · refine ih hts _ ?_
        rw [recordError_consecutive]
        simp only [List.length_cons] at h5
        omega

/-- C6: breaker invariants.  From any state, a run of five or more
consecutive `recordError` calls leaves the breaker open, and an `isOpen`
probe within the 30 s cooldown of the last error reports it open; any
`recordSuccess` zeroes `consecutiveErrors` and clears the open flag; and a
probe on an open breaker more than 30 s after the last error self-resets
the breaker and reports it closed. -/
theorem circuit_breaker_behaviour (s : BreakerState) (ts : List Int)
    (now : Int) (h5 : 5 ≤ ts.length) :
    (ts.foldl (fun st t => (recordError st t).1) s).isCircuitOpen = true ∧
    (now - (ts.foldl (fun st t => (recordError st t).1) s).lastErrorTime
        ≤ circuitBreakerCooldown →
      (isCircuitBreakerOpen
        (ts.foldl (fun st t => (recordError st t).1) s) now).2 = true) ∧
    ((recordSuccess s).1.consecutiveErrors = 0 ∧
      (recordSuccess s).1.isCircuitOpen = false) ∧
    (s.isCircuitOpen = true →
      circuitBreakerCooldown < now - s.lastErrorTime →
      isCircuitBreakerOpen s now = (⟨0, 0, false⟩, false)) := by
  have hne : ts ≠ [] := by
    intro h0
    rw [h0] at h5
    simp at h5
  have hopen : (ts.foldl (fun st t => (recordError st t).1) s).isCircuitOpen
      = true := by
    refine recordError_fold_open ts hne s ?_
    unfold circuitBreakerThreshold
    omega
  refine ⟨hopen, ?_, ?_, ?_⟩
  · intro hcool
    have hnc : ¬ circuitBreakerCooldown < now -
        (ts.foldl (fun st t => (recordError st t).1) s).lastErrorTime :=
      not_lt.mpr hcool
    simp [isCircuitBreakerOpen, hopen, hnc]
  · unfold recordSuccess resetCircuitBreaker
    split_ifs with hcond
    · exact ⟨rfl, rfl⟩
    · push_neg at hcond
      refine ⟨?_, ?_⟩
      · show s.consecutiveErrors = 0
        omega
      · show s.isCircuitOpen = false
        simpa using hcond.2
  · intro hopen2 hcool2
    unfold isCircuitBreakerOpen resetCircuitBreaker
    rw [hopen2]
    simp [hcool2]

/-- Witness for C6 at a concrete error run. -/
theorem circuit_breaker_behaviour_witness :
    5 ≤ ([0, 0, 0, 0, 0] : List Int).length ∧
    ((([0, 0, 0, 0, 0] : List Int).foldl (fun st t => (recordError st t).1)
        (⟨0, 0, false⟩ : BreakerState)).isCircuitOpen = true ∧
      (0 - (([0, 0, 0, 0, 0] : List Int).foldl
          (fun st t => (recordError st t).1)
          (⟨0, 0, false⟩ : BreakerState)).lastErrorTime
          ≤ circuitBreakerCooldown →
        (isCircuitBreakerOpen
          (([0, 0, 0, 0, 0] : List Int).foldl
            (fun st t => (recordError st t).1)
            (⟨0, 0, false⟩ : BreakerState)) 0).2 = true) ∧
      ((recordSuccess (⟨0, 0, false⟩ : BreakerState)).1.consecutiveErrors = 0 ∧
        (recordSuccess (⟨0, 0, false⟩ : BreakerState)).1.isCircuitOpen
          = false) ∧
      ((⟨0, 0, false⟩ : BreakerState).isCircuitOpen = true →
        circuitBreakerCooldown
            < 0 - (⟨0, 0, false⟩ : BreakerState).lastErrorTime →
        isCircuitBreakerOpen (⟨0, 0, false⟩ : BreakerState) 0
          = (⟨0, 0, false⟩, false))) :=
  ⟨by decide, circuit_breaker_behaviour ⟨0, 0, false⟩ [0, 0, 0, 0, 0] 0
    (by decide)⟩

/-- C7: while the breaker is open and its 30 s cooldown has not elapsed, a
`request` frame is answered by exactly one `sendResponse` of a 503 frame
with headers `X-Error-Type: circuit-breaker-open` and `Retry-After: 30`
and a JSON body with fields `error`, `errorType`, `requestId`,
`retryAfterSeconds`, `timestamp`; no forward to the origin and no SSE dial
is performed and no `request` event is emitted. -/
theorem circuit_breaker_gate_503 (b : BreakerState) (now : Int)
    (request : ProxyRequest) (hopen : b.isCircuitOpen = true)
    (hcool : ¬ circuitBreakerCooldown < now - b.lastErrorTime) :
    handleProxyRequestGate b now request =
      (b, [.sendResp (circuitBreakerErrorResponse request.id now)], []) ∧
    (circuitBreakerErrorResponse request.id now).status = 503 ∧
    lookupHeader (circuitBreakerErrorResponse request.id now).headers
      "X-Error-Type" = some "circuit-breaker-open" ∧
    lookupHeader (circuitBreakerErrorResponse request.id now).headers
      "Retry-After" = some "30" ∧
    bodyKeys (circuitBreakerErrorResponse request.id now).body
      = ["error", "errorType", "requestId", "retryAfterSeconds",
         "timestamp"] ∧
    ∀ a ∈ (handleProxyRequestGate b now request).2.1,
      a ≠ ProxyAction.sseForward ∧ a ≠ ProxyAction.forwardToLocal := by
  have hgate : handleProxyRequestGate b now request =
      (b, [.sendResp (circuitBreakerErrorResponse request.id now)], []) := by
    simp [handleProxyRequestGate, isCircuitBreakerOpen, hopen, hcool]
  refine ⟨hgate, rfl, ?_, ?_, rfl, ?_⟩
  · rfl
  · rfl
  · rw [hgate]
    intro a ha
    simp at ha
    subst ha
    exact ⟨by simp, by simp⟩

/-- Witness for C7 at a concrete open breaker. -/
theorem circuit_breaker_gate_503_witness :
    ((⟨5, 0, true⟩ : BreakerState).isCircuitOpen = true ∧
      ¬ circuitBreakerCooldown
          < 0 - (⟨5, 0, true⟩ : BreakerState).lastErrorTime) ∧
    handleProxyRequestGate ⟨5, 0, true⟩ 0 getReq =
      (⟨5, 0, true⟩, [.sendResp (circuitBreakerErrorResponse getReq.id 0)],
        []) :=
  ⟨⟨rfl, by decide⟩,
    (circuit_breaker_gate_503 ⟨5, 0, true⟩ 0 getReq rfl (by decide)).1⟩

/-- C8: the synthesized error response's status and `errorType` follow the
first matching error-message substring (`timeout` 504, `ECONNREFUSED`,
`ENOTFOUND`, `ECONNRESET`, `ENETUNREACH`/`EHOSTUNREACH` 502, otherwise
500/`unknown-error`); its headers carry `Content-Type: application/json`,
`X-Error-Type` and `X-Local-Server: host:port`; and its JSON body has the
fields `error`, `errorType`, `requestId`, `localServer`, `timestamp`,
`details`. -/
theorem forward_error_mapping (localHost : Option String) (port : Nat)
    (requestId : String) (now : Int) (emsg : String) :
    (includes emsg "timeout" = true →
      (forwardErrorResponse localHost port requestId now emsg).status = 504 ∧
      (classifyForwardError emsg).2.2 = "timeout") ∧
    (includes emsg "timeout" = false → includes emsg "ECONNREFUSED" = true →
      (forwardErrorResponse localHost port requestId now emsg).status = 502 ∧
      (classifyForwardError emsg).2.2 = "connection-refused") ∧
    (includes emsg "timeout" = false → includes emsg "ECONNREFUSED" = false →
      includes emsg "ENOTFOUND" = true →
      (forwardErrorResponse localHost port requestId now emsg).status = 502 ∧
      (classifyForwardError emsg).2.2 = "host-not-found") ∧
    (includes emsg "timeout" = false → includes emsg "ECONNREFUSED" = false →
      includes emsg "ENOTFOUND" = false → includes emsg "ECONNRESET" = true →
      (forwardErrorResponse localHost port requestId now emsg).status = 502 ∧
      (classifyForwardError emsg).2.2 = "connection-reset") ∧
    (includes emsg "timeout" = false → includes emsg "ECONNREFUSED" = false →
      includes emsg "ENOTFOUND" = false → includes emsg "ECONNRESET" = false →
      (includes emsg "ENETUNREACH" = true ∨
        includes emsg "EHOSTUNREACH" = true) →
      (forwardErrorResponse localHost port requestId now emsg).status = 502 ∧
      (classifyForwardError emsg).2.2 = "network-unreachable") ∧
    (includes emsg "timeout" = false → includes emsg "ECONNREFUSED" = false →
      includes emsg "ENOTFOUND" = false → includes emsg "ECONNRESET" = false →
      includes emsg "ENETUNREACH" = false →
      includes emsg "EHOSTUNREACH" = false →
      (forwardErrorResponse localHost port requestId now emsg).status = 500 ∧
      (classifyForwardError emsg).2.2 = "unknown-error") ∧
    lookupHeader (forwardErrorResponse localHost port requestId now
      emsg).headers "Content-Type" = some "application/json" ∧
    lookupHeader (forwardErrorResponse localHost port requestId now
      emsg).headers "X-Error-Type" = some (classifyForwardError emsg).2.2 ∧
    lookupHeader (forwardErrorResponse localHost port requestId now
      emsg).headers "X-Local-Server"
      = some ((localHost.getD "localhost") ++ ":" ++ toString port) ∧
    bodyKeys (forwardErrorResponse localHost port requestId now emsg).body
      = ["error", "errorType", "requestId", "localServer", "timestamp",
         "details"] := by
  refine ⟨?_, ?_, ?_, ?_, ?_, ?_, ?_, ?_, ?_, ?_⟩
  · intro h1
    simp [forwardErrorResponse, classifyForwardError, h1]
  · intro h1 h2
    simp [forwardErrorResponse, classifyForwardError, h1, h2]
  · intro h1 h2 h3
    simp [forwardErrorResponse, classifyForwardError, h1, h2, h3]
  · intro h1 h2 h3 h4
    simp [forwardErrorResponse, classifyForwardError, h1, h2, h3, h4]
  · intro h1 h2 h3 h4 h5
    rcases h5 with h5 | h5 <;>
      simp [forwardErrorResponse, classifyForwardError, h1, h2, h3, h4, h5]
  · intro h1 h2 h3 h4 h5 h6
    simp [forwardErrorResponse, classifyForwardError, h1, h2, h3, h4, h5, h6]
  · rfl
  · simp [forwardErrorResponse, lookupHeader, List.find?]
  · simp [forwardErrorResponse, lookupHeader, List.find?]
  · rfl

/-- Witness for C8 at a concrete timeout message. -/
theorem forward_error_mapping_witness :
    includes "Request timeout after 3 attempts" "timeout" = true ∧
    ((forwardErrorResponse none 3000 "r1" 0
        "Request timeout after 3 attempts").status = 504 ∧
      (classifyForwardError "Request timeout after 3 attempts").2.2
        = "timeout") :=
  ⟨by decide,
    (forward_error_mapping none 3000 "r1" 0
      "Request timeout after 3 attempts").1 (by decide)⟩

/-- C9: the adaptive dial timeout equals the claim's two-stage rule: first
matching rule among SSE (3,600,000 ms), GET with `/api/` in the path
(`min(base, 60000)`), POST or PUT or `/upload` in the path
(`min(base*2, 180000)`), retry (`min(base*1.5^retry, 60000)`), else the
base; afterwards a body over 50 KB multiplies the timeout by
`min(1 + size/500000, 2)` with a 180,000 ms cap. -/
theorem adaptiveTimeout_eq_spec (base : Rat) (request : ProxyRequest)
    (retryCount : Nat) :
    adaptiveTimeout base request retryCount
      = specAdaptiveTimeout base request retryCount := by
  have h2 : (includes request.path "/api/" && decide (request.method = "GET"))
      = (decide (request.method = "GET") && includes request.path "/api/") :=
    Bool.and_comm _ _
  have h3 : (includes request.path "/upload"
        || decide (request.method = "POST")
        || decide (request.method = "PUT"))
      = (decide (request.method = "POST") || decide (request.method = "PUT")
        || includes request.path "/upload") := by
    have hcomm : ∀ a b c : Bool, (a || b || c) = (b || c || a) := by decide
    exact hcomm _ _ _
  simp only [adaptiveTimeout, specAdaptiveTimeout, h2, h3]

/-- C10: when the WebSocket is absent or not OPEN, `sendResponse` is a
no-op: the session state (breaker, chunk table, reconnect state) is
returned unchanged, nothing is written to the socket, nothing is queued,
and no event is emitted. -/
theorem sendResponse_noop_when_ws_not_open
    (stringify : WSMessage ProxyResponse → JSStr) (mid : JSStr)
    (st : SessionState) (response : ProxyResponse)
    (h : ∀ w, st.websocket = some w → w ≠ WsReadyState.OPEN) :
    sendResponse stringify mid st response = (st, [], []) := by
  unfold sendResponse
  cases hw : st.websocket with
  | none => rfl
  | some w =>
      have hne := h w hw
      simp [hne]

/-- Witness for C10 at a session without a WebSocket. -/
theorem sendResponse_noop_witness :
    (∀ w, noWsSession.websocket = some w → w ≠ WsReadyState.OPEN) ∧
    sendResponse stringifyRespEmpty [] noWsSession okResp
      = (noWsSession, [], []) :=
  ⟨fun w hw => by simp [noWsSession, freshSession] at hw,
    sendResponse_noop_when_ws_not_open stringifyRespEmpty [] noWsSession
      okResp (fun w hw => by simp [noWsSession, freshSession] at hw)⟩

/-! ## C3: the splitter can bisect a surrogate pair -/

theorem sBad_length : sBad.length = 1048575 := by
  rw [sBad, List.length_append, List.length_cons, List.length_cons,
    List.length_replicate, List.length_replicate]

theorem sBad_utf8Len : utf8Len sBad = 1048577 := by
  rw [sBad, utf8Len_replicate_append, utf8Len_pair_cons, utf8Len_replicate]

theorem utf8Len_take_sBad_lo (x : Nat) (hx : x ≤ 786429) :
    utf8Len (sBad.take x) = x := by
  rw [sBad, List.take_append_eq_append_take, List.take_replicate]
  have h1 : min x 786429 = x := by omega
  have h2 : x - (List.replicate 786429 (0x61 : Nat)).length = 0 := by
    rw [List.length_replicate]
    omega
  rw [h1, h2, List.take_zero, List.append_nil, utf8Len_replicate]

theorem utf8Len_take_sBad_mid : utf8Len (sBad.take 786430) = 786432 := by
  rw [sBad, List.take_append_eq_append_take, List.take_replicate]
  have h1 : min 786430 786429 = 786429 := by omega
  have h2 : 786430 - (List.replicate 786429 (0x61 : Nat)).length = 1 := by
    rw [List.length_replicate]
  rw [h1, h2]
  show utf8Len (List.replicate 786429 0x61 ++ [0xD834]) = 786432
  rw [utf8Len_replicate_append]
  show 786429 + utf8UnitLen 0xD834 = 786432
  norm_num [utf8UnitLen]

theorem utf8Len_take_sBad_hi (x : Nat) (hx1 : 786431 ≤ x)
    (hx2 : x ≤ 786432) :
    utf8Len (sBad.take x) = x + 2 := by
  rw [sBad, List.take_append_eq_append_take, List.take_replicate]
  have h1 : min x 786429 = 786429 := by omega
  have h2 : x - (List.replicate 786429 (0x61 : Nat)).length = x - 786429 := by
    rw [List.length_replicate]
  obtain ⟨m, hm⟩ : ∃ m, x - 786429 = m + 2 := ⟨x - 786431, by omega⟩
  rw [h1, h2, hm, List.take_succ_cons, List.take_succ_cons,
    List.take_replicate, utf8Len_replicate_append, utf8Len_pair_cons,
    utf8Len_replicate]
  have h3 : min m 262144 = m := by omega
  rw [h3]
  omega

theorem sBad_char (x : Nat) (h1 : 1 ≤ x) (h2 : x ≤ 786432) :
    (utf8Len (sBad.take x) ≤ CHUNK_SIZE ↔ x ≤ 786430) := by
  by_cases hx : x ≤ 786429
  · rw [utf8Len_take_sBad_lo x hx]
    unfold CHUNK_SIZE
    omega
  · by_cases hx1 : x = 786430
    · subst hx1
      rw [utf8Len_take_sBad_mid]
      unfold CHUNK_SIZE
      omega
    · rw [utf8Len_take_sBad_hi x (by omega) h2]
      unfold CHUNK_SIZE
      omega

theorem sBad_bsearch : bsearch sBad CHUNK_SIZE 1 786432 1 = 786430 := by
  refine bsearch_eq_of_char sBad CHUNK_SIZE 786430 786432
    (fun x hx1 hx2 => sBad_char x hx1 hx2) 786432 1 786432 1 ?_ ?_ ?_ ?_ ?_
    ?_ ?_ <;> omega

theorem sBad_take : sBad.take 786430
    = List.replicate 786429 0x61 ++ [0xD834] := by
  rw [sBad, List.take_append_eq_append_take, List.take_replicate]
  have h1 : min 786430 786429 = 786429 := by omega
  have h2 : 786430 - (List.replicate 786429 (0x61 : Nat)).length = 1 := by
    rw [List.length_replicate]
  rw [h1, h2]
  rfl

theorem sBad_drop : sBad.drop 786430
    = 0xDD1E :: List.replicate 262144 0x61 := by
  rw [sBad, List.drop_append_eq_append_drop, List.drop_replicate]
  have h1 : (786429 : Nat) - 786430 = 0 := by omega
  have h2 : 786430 - (List.replicate 786429 (0x61 : Nat)).length = 1 := by
    rw [List.length_replicate]
  rw [h1, h2]
  rfl

theorem utf8Len_sBad_tail :
    utf8Len (0xDD1E :: List.replicate 262144 0x61) = 262147 := by
  rw [utf8Len_cons_notHigh (by decide), utf8Len_replicate]
  show utf8UnitLen 0xDD1E + 262144 = 262147
  norm_num [utf8UnitLen]

/-- C3 (bug in the source): on a 1,048,577-byte serialization whose
768-KiB boundary falls three bytes before an astral code point, the
splitter — whose binary search works on UTF-16 code-unit indices, not
code-point boundaries — ends the first chunk with the lone high surrogate
`0xD834` and starts the second with the lone low surrogate `0xDD1E`,
bisecting the code point U+1D11E.  The spec requires every chunk boundary
of an over-1-MiB frame to lie on a code-point boundary. -/
theorem safeStringChunk_splits_code_point :
    MAX_MESSAGE_SIZE < utf8Len sBad ∧
    safeStringChunk sBad CHUNK_SIZE =
      [List.replicate 786429 0x61 ++ [0xD834],
       0xDD1E :: List.replicate 262144 0x61] ∧
    splitsPair (safeStringChunk sBad CHUNK_SIZE) = true := by
  have hlen : utf8Len sBad = 1048577 := sBad_utf8Len
  have h1 : MAX_MESSAGE_SIZE < utf8Len sBad := by
    rw [hlen]
    unfold MAX_MESSAGE_SIZE
    omega
  have hs : safeStringChunk sBad CHUNK_SIZE =
      [List.replicate 786429 0x61 ++ [0xD834],
       0xDD1E :: List.replicate 262144 0x61] := by
    rw [safeStringChunk]
    have hne : ¬ sBad = [] := by
      intro h0
      have hl := sBad_length
      rw [h0] at hl
      simp at hl
    rw [if_neg hne]
    have hgt : ¬ utf8Len sBad ≤ CHUNK_SIZE := by
      rw [hlen]
      unfold CHUNK_SIZE
      omega
    rw [if_neg hgt]
    have hmin : min sBad.length CHUNK_SIZE = 786432 := by
      rw [sBad_length]
      unfold CHUNK_SIZE
      omega
    rw [hmin, sBad_bsearch]
    show sBad.take 786430 :: safeStringChunk (sBad.drop 786430) CHUNK_SIZE
      = _
    rw [sBad_take, sBad_drop, safeStringChunk]
    have hne2 : ¬ (0xDD1E :: List.replicate 262144 0x61 : JSStr) = [] :=
      List.cons_ne_nil _ _
    have hfits : utf8Len (0xDD1E :: List.replicate 262144 0x61)
        ≤ CHUNK_SIZE := by
      rw [utf8Len_sBad_tail]
      unfold CHUNK_SIZE
      omega
    rw [if_neg hne2, if_pos hfits]
  refine ⟨h1, hs, ?_⟩
  rw [hs]
  have hstep : splitsPair
      [List.replicate 786429 (0x61 : Nat) ++ [0xD834],
       0xDD1E :: List.replicate 262144 0x61] =
      ((match (List.replicate 786429 (0x61 : Nat) ++ [0xD834]).getLast?,
          (0xDD1E :: List.replicate 262144 (0x61 : Nat)).head? with
        | some u, some v => isHighSurrogate u && isLowSurrogate v
        | _, _ => false)
        || splitsPair [0xDD1E :: List.replicate 262144 0x61]) := rfl
  have hlast : (List.replicate 786429 (0x61 : Nat) ++ [0xD834]).getLast?
      = some 0xD834 := List.getLast?_concat _
  have hhead : (0xDD1E :: List.replicate 262144 (0x61 : Nat)).head?
      = some 0xDD1E := rfl
  rw [hstep, hlast, hhead]
  show (isHighSurrogate 0xD834 && isLowSurrogate 0xDD1E)
    || splitsPair [0xDD1E :: List.replicate 262144 0x61] = true
  have htail : splitsPair [0xDD1E :: List.replicate 262144 (0x61 : Nat)]
      = false := rfl
  rw [htail]
  decide
